import Mathlib

/-!
Verification of the codebase-ai repository (chunk extraction, content-addressed
storage, and patch application) against its natural-language specification.

The definitions below are a shallow embedding of the Python sources:

* `src/utils/query_processor.py` — patch application (`_apply_single_change`,
  `_update_file_index`);
* `src/utils/indexer.py` — chunk extraction (`_index_file`, `walk_tree`,
  `_process_decorated`, `_process_node`, `_process_remaining_lines`,
  `_store_chunk`);
* `src/utils/database.py` — the Chroma-backed store (`EmbeddingDB`);
* `src/utils/embeddings.py` — the embedding provider (`get_embedding`).

Python strings are modelled as Lean `String`s (sources in the claims are
ASCII, so byte indices and character indices coincide); raised exceptions of
fallible external calls are modelled with `Except`; the tree-sitter parse
tree is modelled by the `TSNode` type, whose concrete values at
counterexamples are the trees tree-sitter produces for the given inputs.
-/

namespace CodebaseAI

/-! ## String splitting and joining (Python `str.split`, `str.splitlines`, `'\n'.join`) -/

/-- Auxiliary for Python `s.split('\n')`: walk the characters, cutting at
every newline.  `acc` holds the current piece reversed. -/
def splitNlAux : List Char → List Char → List (List Char)
  | [], acc => [acc.reverse]
  | c :: rest, acc =>
    if c = '\n' then acc.reverse :: splitNlAux rest []
    else splitNlAux rest (c :: acc)

/-- Python `s.split('\n')` (used by `_index_file`:
`source_code.decode('utf-8').split('\n')`).  Always returns at least one
piece; keeps a trailing empty piece when `s` ends with a newline. -/
def splitNl (s : String) : List String :=
  (splitNlAux s.data []).map String.mk

/-- Python `s.splitlines()` (used by `_apply_single_change`:
`file_path.read_text().splitlines()`), modelled for `'\n'` line
terminators (the only terminator occurring in the repository's files):
like `split('\n')` but the trailing empty piece produced by a final
newline is dropped, and `"".splitlines() == []`. -/
def splitlines (s : String) : List String :=
  let ps := splitNl s
  if ps.getLast? = some "" then ps.dropLast else ps

/-- Python's whitespace set for `str.strip()` (space, tab, newline,
carriage return, vertical tab, form feed). -/
def isPyWhitespace (c : Char) : Bool :=
  c = ' ' || c = '\t' || c = '\n' || c = '\r' || c = '\x0b' || c = '\x0c'

/-- Python `s.strip()`: remove leading and trailing whitespace. -/
def pyStrip (s : String) : String :=
  String.mk (((s.data.dropWhile isPyWhitespace).reverse.dropWhile isPyWhitespace).reverse)

/-- Auxiliary for Python `s.startswith(pre)`: does the second character
list start with the first? -/
def leadsWith : List Char → List Char → Bool
  | [], _ => true
  | _ :: _, [] => false
  | a :: as, b :: bs => a = b && leadsWith as bs

/-- Python `s.startswith(pre)`. -/
def pyStartsWith (s pre : String) : Bool :=
  leadsWith pre.data s.data

/-- Character-level Python `'\n'.join`. -/
def joinLinesData : List (List Char) → List Char
  | [] => []
  | [x] => x
  | x :: xs => x ++ '\n' :: joinLinesData xs

/-- Python `'\n'.join(lines)` (used by `_apply_single_change`:
`file_path.write_text('\n'.join(modified_lines))`). -/
def joinLines (l : List String) : String :=
  String.mk (joinLinesData (l.map String.data))

/-! ## Patch application (`QueryProcessor._apply_single_change`) -/

/-- An Edit Proposal as consumed by `_apply_single_change` (the
`file_path` and `reasoning` fields are handled by the caller / printing
only). -/
structure Change where
  startLine : Nat
  endLine : Nat
  newContent : String
  deriving DecidableEq, Repr

/-- The splice of `_apply_single_change`:
`modified_lines = lines[:start_idx] + new_lines + lines[end_idx + 1:]`
with `start_idx = start_line - 1` and `end_idx = end_line - 1`
(so `lines[end_idx + 1:]` is `drop end_line`).  Python slices clamp
out-of-range indices, exactly as `List.take`/`List.drop` do. -/
def spliceLines (lines : List String) (startLine endLine : Nat)
    (newLines : List String) : List String :=
  lines.take (startLine - 1) ++ newLines ++ lines.drop endLine

/-- The modified line list computed by `_apply_single_change`:
`lines = file_path.read_text().splitlines()`,
`new_lines = change['new_content'].splitlines()`, then the splice. -/
def applySingleChangeLines (content : String) (c : Change) : List String :=
  spliceLines (splitlines content) c.startLine c.endLine (splitlines c.newContent)

/-- The content written back by `_apply_single_change`:
`file_path.write_text('\n'.join(modified_lines))`. -/
def applySingleChange (content : String) (c : Change) : String :=
  joinLines (applySingleChangeLines content c)

/-- The filesystem writes performed by `_apply_single_change` on a file
at `path` whose current content is `content`: the body contains exactly
one mutating filesystem call, the final `file_path.write_text(...)` —
there is no bounds validation and no write to any other path (in
particular no `.backup` sibling). -/
def applySingleChangeWrites (path : String) (content : String) (c : Change) :
    List (String × String) :=
  [(path, applySingleChange content c)]

/-! ## Tree-sitter parse trees

`_index_file` parses the file with tree-sitter and walks the resulting
tree.  The parser itself is an external library; its output tree is the
input of the embedding.  A node carries its type string, 0-based start
and end rows (`start_point[0]`, `end_point[0]`), byte offsets
(`start_byte`, `end_byte`) and children (named and anonymous, in
document order), as in the tree-sitter API. -/

mutual

inductive TSNode where
  | mk (type : String) (startRow endRow startByte endByte : Nat) (children : TSNodeList)

inductive TSNodeList where
  | nil
  | cons (n : TSNode) (ns : TSNodeList)

end

/-- Build a `TSNodeList` from a plain list (concrete trees are written
with ordinary list literals). -/
def tsl : List TSNode → TSNodeList
  | [] => .nil
  | n :: ns => .cons n (tsl ns)

/-- The node's `type` string. -/
def TSNode.type : TSNode → String
  | .mk t _ _ _ _ _ => t

/-- The node's `start_point[0]` (0-based start row). -/
def TSNode.startRow : TSNode → Nat
  | .mk _ sr _ _ _ _ => sr

/-- The node's `end_point[0]` (0-based end row). -/
def TSNode.endRow : TSNode → Nat
  | .mk _ _ er _ _ _ => er

/-- The node's `start_byte`. -/
def TSNode.startByte : TSNode → Nat
  | .mk _ _ _ sb _ _ => sb

/-- The node's `end_byte`. -/
def TSNode.endByte : TSNode → Nat
  | .mk _ _ _ _ eb _ => eb

/-- The node's `children`. -/
def TSNode.children : TSNode → TSNodeList
  | .mk _ _ _ _ _ cs => cs

/-- Python `source_code[start_byte:end_byte].decode('utf-8')`: byte
slicing of the source.  The sources at every concrete input below are
ASCII, where byte offsets and character offsets coincide. -/
def byteSlice (src : String) (a b : Nat) : String :=
  String.mk ((src.data.drop a).take (b - a))

/-- Modelled stand-in for the external library call
`hashlib.md5(content.encode()).hexdigest()`: a deterministic digest of
the content.  Every theorem below uses only that it is a function of the
content; the stand-in returns the content itself. -/
def md5Hex (s : String) : String := s

/-- A chunk as assembled by `_index_file` and handed to `_store_chunk`
(dict keys `content`, `hash`, `start_line`, `end_line`, `type`,
`name`). -/
structure Chunk where
  content : String
  hash : String
  startLine : Nat
  endLine : Nat
  type : String
  name : String
  deriving DecidableEq, Repr

/-- The per-language node-type lists chosen at the top of
`_index_file`. -/
structure LangConfig where
  importTypes : List String
  functionTypes : List String
  classTypes : List String
  decoratedTypes : List String

/-- The `.py` branch of `_index_file`. -/
def pythonConfig : LangConfig :=
  ⟨["import_statement", "import_from_statement"],
   ["function_definition", "async_function_definition"],
   ["class_definition"],
   ["decorated_definition"]⟩

/-- The `.js` branch of `_index_file`. -/
def javascriptConfig : LangConfig :=
  ⟨["import_statement", "import_declaration"],
   ["function_declaration", "function_expression", "arrow_function"],
   ["class_declaration"],
   []⟩

mutual

/-- The nested `collect_imports` of `_index_file`: append the node when
its type is an import type, then recurse into all children. -/
def collectImports (importTypes : List String) : TSNode → List TSNode
  | .mk t sr er sb eb cs =>
    (if t ∈ importTypes then [TSNode.mk t sr er sb eb cs] else []) ++
      collectImportsList importTypes cs
  termination_by structural n => n

/-- `collect_imports` over a child list. -/
def collectImportsList (importTypes : List String) : TSNodeList → List TSNode
  | .nil => []
  | .cons n ns => collectImports importTypes n ++ collectImportsList importTypes ns
  termination_by structural ns => ns

end

/-- First child satisfying a predicate (the `for child in node.children:
... break` idiom). -/
def findChild (p : TSNode → Bool) : TSNodeList → Option TSNode
  | .nil => none
  | .cons n ns => if p n then some n else findChild p ns

/-- `_get_node_name`: the source text of the first child of type
`identifier`, or `""` when there is none. -/
def getNodeName (src : String) (n : TSNode) : String :=
  match findChild (fun c => c.type == "identifier") n.children with
  | some c => byteSlice src c.startByte c.endByte
  | none => ""

/-- The mutable state threaded through the walk: `processed_lines` (a
Python set of line numbers — only membership is ever queried, so a list
is an adequate model) and the chunks stored so far, in storage order. -/
structure ExtractState where
  processed : List Nat
  chunks : List Chunk
  deriving Repr

/-- `for line_num in range(start_row, end_row + 1):
processed_lines.add(line_num + 1)` — note the stored values are 1-based
while the rows are 0-based. -/
def markLines (startRow endRow : Nat) (processed : List Nat) : List Nat :=
  processed ++ (List.range' startRow (endRow + 1 - startRow)).map (· + 1)

/-- `CodebaseIndexer._process_node`: skip when the node's 0-based
`start_point[0]` is found in the (1-based) `processed_lines` set,
otherwise emit one chunk over the node's bytes and mark its lines. -/
def processNode (src : String) (chunkType : String) (n : TSNode)
    (st : ExtractState) : ExtractState :=
  if n.startRow ∈ st.processed then st
  else
    let content := byteSlice src n.startByte n.endByte
    let name := if chunkType = "FunctionDef" ∨ chunkType = "ClassDef" then
      getNodeName src n else "imports"
    let chunk : Chunk :=
      ⟨content, md5Hex content, n.startRow + 1, n.endRow + 1, chunkType, name⟩
    ⟨markLines n.startRow n.endRow st.processed, st.chunks ++ [chunk]⟩

/-- `CodebaseIndexer._process_decorated`: skip when the decorated node's
0-based start row is found in the (1-based) `processed_lines`; find the
wrapped definition among the children; emit one chunk over the whole
decorated node (decorators included), named after the wrapped
definition. -/
def processDecorated (src : String) (n : TSNode) (st : ExtractState) :
    ExtractState :=
  if n.startRow ∈ st.processed then st
  else
    match findChild (fun c =>
        c.type == "function_definition" || c.type == "async_function_definition" ||
        c.type == "class_definition") n.children with
    | none => st
    | some funcNode =>
      let content := byteSlice src n.startByte n.endByte
      let name := getNodeName src funcNode
      let chunkType := if funcNode.type = "function_definition" ∨
          funcNode.type = "async_function_definition" then "FunctionDef" else "ClassDef"
      let chunk : Chunk :=
        ⟨content, md5Hex content, n.startRow + 1, n.endRow + 1, chunkType, name⟩
      ⟨markLines n.startRow n.endRow st.processed, st.chunks ++ [chunk]⟩

/-- The dispatch at the top of the nested `walk_tree` of `_index_file`:
decorated definitions, functions, classes and assignments produce a
chunk, every other node type is passed over. -/
def walkStep (cfg : LangConfig) (src : String) (n : TSNode)
    (st : ExtractState) : ExtractState :=
  if n.type ∈ cfg.decoratedTypes then processDecorated src n st
  else if n.type ∈ cfg.functionTypes then processNode src "FunctionDef" n st
  else if n.type ∈ cfg.classTypes then processNode src "ClassDef" n st
  else if n.type = "assignment" then processNode src "Statement" n st
  else st

mutual

/-- The nested `walk_tree` of `_index_file`: dispatch on the node type
(decorated, function, class, assignment), then recurse into all
children. -/
def walkTree (cfg : LangConfig) (src : String) (st : ExtractState) :
    TSNode → ExtractState
  | .mk t sr er sb eb cs =>
    walkTreeList cfg src (walkStep cfg src (TSNode.mk t sr er sb eb cs) st) cs
  termination_by structural n => n

/-- `walk_tree` over a child list, in document order. -/
def walkTreeList (cfg : LangConfig) (src : String) (st : ExtractState) :
    TSNodeList → ExtractState
  | .nil => st
  | .cons n ns => walkTreeList cfg src (walkTree cfg src st n) ns
  termination_by structural ns => ns

end

/-- The `Statement` chunk built at the end of a sweep run in
`_process_remaining_lines`: content is `'\n'.join(chunk_lines).strip()`,
the range is `start_line .. start_line + len(chunk_lines) - 1`. -/
def mkStatementChunk (chunkLines : List String) (startLine : Nat) : Chunk :=
  let content := pyStrip (joinLines chunkLines)
  ⟨content, md5Hex content, startLine, startLine + chunkLines.length - 1,
   "Statement", "code_block"⟩

/-- The loop of `_process_remaining_lines` over `enumerate(lines, 1)`:
`i` is the 1-based index of the head of the remaining lines;
`chunkLines`/`startLine` mirror `chunk_lines`/`start_line` (the Python
`None` initial value of `start_line` is modelled as `0` — it is read
only after `chunk_lines` became nonempty, which assigns it first).
A pending nonempty `chunk_lines` at loop exit is discarded, as in the
source (the flush condition `i == len(lines)` is only reachable when the
last line itself is unprocessed). -/
def processRemainingGo (processed : List Nat) :
    Nat → List String → List String → Nat → List Chunk → List Chunk
  | _, [], _, _, acc => acc
  | i, line :: rest, chunkLines, startLine, acc =>
    if i ∈ processed then
      processRemainingGo processed (i + 1) rest chunkLines startLine acc
    else if chunkLines = [] ∧ (pyStrip line = "" ∨ pyStartsWith (pyStrip line) "#") then
      processRemainingGo processed (i + 1) rest chunkLines startLine acc
    else
      let s := if chunkLines = [] then i else startLine
      let cl := chunkLines ++ [line]
      if pyStrip line = "" ∨ rest = [] then
        let acc' := if cl.any (fun l => pyStrip l != "") then
          acc ++ [mkStatementChunk cl s] else acc
        processRemainingGo processed (i + 1) rest [] 0 acc'
      else
        processRemainingGo processed (i + 1) rest cl s acc

/-- `CodebaseIndexer._process_remaining_lines`. -/
def processRemainingLines (lines : List String) (processed : List Nat) :
    List Chunk :=
  processRemainingGo processed 1 lines [] 0 []

/-- The import-chunk phase of `_index_file`: when any import nodes were
collected, emit one `Import` chunk spanning their min/max rows and bytes
and mark those lines processed. -/
def importsPhase (src : String) (imports : List TSNode) :
    List Nat × List Chunk :=
  match imports with
  | [] => ([], [])
  | n :: ns =>
    let sr := (ns.map TSNode.startRow).foldl min n.startRow
    let er := (ns.map TSNode.endRow).foldl max n.endRow
    let sb := (ns.map TSNode.startByte).foldl min n.startByte
    let eb := (ns.map TSNode.endByte).foldl max n.endByte
    let content := byteSlice src sb eb
    let chunk : Chunk := ⟨content, md5Hex content, sr + 1, er + 1, "Import", "imports"⟩
    ((List.range' sr (er + 1 - sr)).map (· + 1), [chunk])

/-- The chunk-producing body of `_index_file` for a parsed file: import
phase, tree walk, then the sweep over `source.split('\n')`.  The
returned list is the sequence of chunks passed to `_store_chunk`, in
order. -/
def extractChunks (cfg : LangConfig) (src : String) (tree : TSNode) :
    List Chunk :=
  let imports := collectImports cfg.importTypes tree
  let p := importsPhase src imports
  let st := walkTree cfg src ⟨p.1, p.2⟩ tree
  st.chunks ++ processRemainingLines (splitNl src) st.processed

/-- `CodebaseIndexer._index_file`, as a function from the file's suffix,
decoded content, and parse tree to the chunks it stores: `.py` and `.js`
dispatch to their configs; any other suffix returns before the parser is
ever constructed (`else: return`), storing nothing — the `tree` argument
is not consulted on that path. -/
def indexFileChunks (suffix : String) (src : String) (tree : TSNode) :
    List Chunk :=
  if suffix = ".py" then extractChunks pythonConfig src tree
  else if suffix = ".js" then extractChunks javascriptConfig src tree
  else []

/-! ## Embedding provider (`src/utils/embeddings.py`) -/

/-- `get_embedding(text)`: the external call
`embeddings_model.embed_query(text)` either returns a vector or raises;
that outcome is the `modelResult` argument.  On a raised exception the
function prints the error and returns `[0.0] * 384`; nothing is
re-raised, so the function is total. -/
def getEmbedding (modelResult : Except String (List Float)) : List Float :=
  match modelResult with
  | .ok v => v
  | .error _ => List.replicate 384 0.0

/-! ## The store (`src/utils/database.py`, class `EmbeddingDB`) -/

/-- One entry of the Chroma collection `codebase_chunks`: its id (the
chunk hash), the metadata dict, the document (chunk content) and the
embedding. -/
structure DBRecord where
  id : String
  filePath : String
  chunkType : String
  name : String
  startLine : Nat
  endLine : Nat
  content : String
  embedding : List Float

/-- The store held by `EmbeddingDB`: the collection's records in
insertion order.  The class defines exactly the methods
`chunk_exists`, `store_chunk`, `similarity_search` and
`get_chunk_by_location` — in particular it defines no
`remove_chunks_for_file` and no other deletion method. -/
structure EmbeddingDB where
  records : List DBRecord

/-- `EmbeddingDB.chunk_exists`: `collection.get(ids=[chunk_hash])`
returns the records with that id; the result is whether any exist. -/
def chunkExists (db : EmbeddingDB) (chunkHash : String) : Bool :=
  db.records.any (fun r => r.id == chunkHash)

/-- `EmbeddingDB.store_chunk`: `collection.add` of one record keyed by
the chunk hash. -/
def storeChunk (db : EmbeddingDB) (filePath chunkHash chunkType name : String)
    (startLine endLine : Nat) (content : String) (embedding : List Float) :
    EmbeddingDB :=
  ⟨db.records ++ [⟨chunkHash, filePath, chunkType, name, startLine, endLine,
    content, embedding⟩]⟩

/-- The dict returned by `EmbeddingDB.get_chunk_by_location` (metadata
fields plus the document; the embedding is not returned). -/
structure LocatedChunk where
  filePath : String
  chunkType : String
  name : String
  startLine : Nat
  endLine : Nat
  content : String
  deriving DecidableEq, Repr

/-- `EmbeddingDB.get_chunk_by_location`: restrict the collection to the
records whose `file_path` matches, return the first whose
`[start_line, end_line]` contains the line, else `None`. -/
def getChunkByLocation (db : EmbeddingDB) (filePath : String)
    (lineNumber : Nat) : Option LocatedChunk :=
  ((db.records.filter (fun r => r.filePath == filePath)).find?
      (fun r => decide (r.startLine ≤ lineNumber ∧ lineNumber ≤ r.endLine))).map
    (fun r => ⟨r.filePath, r.chunkType, r.name, r.startLine, r.endLine, r.content⟩)

/-- `CodebaseIndexer._store_chunk`: return unchanged when
`chunk_exists(chunk['hash'])`, otherwise obtain the embedding
(`get_embedding(chunk['content'])`, abstracted as the function `embed`)
and `store_chunk` under `relPath`
(`str(file_path.relative_to(self.project_path))`). -/
def storeChunkIfNew (embed : String → List Float) (relPath : String)
    (db : EmbeddingDB) (c : Chunk) : EmbeddingDB :=
  if chunkExists db c.hash then db
  else storeChunk db relPath c.hash c.type c.name c.startLine c.endLine
    c.content (embed c.content)

/-- The sequence of `_store_chunk` calls one `_index_file` run makes for
a file's extracted chunks, in emission order. -/
def storeMany (embed : String → List Float) (relPath : String)
    (db : EmbeddingDB) (cs : List Chunk) : EmbeddingDB :=
  cs.foldl (storeChunkIfNew embed relPath) db

/-- `QueryProcessor._update_file_index`: the `try` block's first store
operation is `self.db.remove_chunks_for_file(str(relative_path))`, but
`EmbeddingDB` (src/utils/database.py) defines no method of that name, so
the call raises `AttributeError`; the blanket `except Exception` catches
it and only prints an error message, so control never reaches either the
deletion or the `indexer._index_file(file_path)` re-extraction: the
store is returned unchanged. -/
def updateFileIndex (db : EmbeddingDB) : EmbeddingDB := db

/-! ## Concrete inputs used by the counterexamples -/

/-- A Python file whose first line is a call statement and whose last
claimed line runs to end of file (no trailing newline):
line 1 `print("a")`, lines 2-3 `def f(): / pass`. -/
def file3 : String := "print(\"a\")\ndef f():\n    pass"

/-- The tree-sitter parse tree of `file3` (module, expression statement
with call on row 0, function definition on rows 1-2). -/
def tree3 : TSNode :=
  .mk "module" 0 2 0 28 (tsl [
    .mk "expression_statement" 0 0 0 10 (tsl [
      .mk "call" 0 0 0 10 (tsl [
        .mk "identifier" 0 0 0 5 (tsl []),
        .mk "argument_list" 0 0 5 10 (tsl [
          .mk "(" 0 0 5 6 (tsl []),
          .mk "string" 0 0 6 9 (tsl []),
          .mk ")" 0 0 9 10 (tsl [])])])]),
    .mk "function_definition" 1 2 11 28 (tsl [
      .mk "def" 1 1 11 14 (tsl []),
      .mk "identifier" 1 1 15 16 (tsl []),
      .mk "parameters" 1 1 16 18 (tsl []),
      .mk ":" 1 1 18 19 (tsl []),
      .mk "block" 2 2 24 28 (tsl [
        .mk "pass_statement" 2 2 24 28 (tsl [])])])])

/-- A Python file with an import directly followed by a decorated
definition (no trailing newline): line 1 `import os`, line 2 `@app.get`,
lines 3-4 `def f(): / pass`. -/
def file4 : String := "import os\n@app.get\ndef f():\n    pass"

/-- The tree-sitter parse tree of `file4` (module, import statement on
row 0, decorated definition on rows 1-3 wrapping a function definition
on rows 2-3). -/
def tree4 : TSNode :=
  .mk "module" 0 3 0 36 (tsl [
    .mk "import_statement" 0 0 0 9 (tsl [
      .mk "import" 0 0 0 6 (tsl []),
      .mk "dotted_name" 0 0 7 9 (tsl [
        .mk "identifier" 0 0 7 9 (tsl [])])]),
    .mk "decorated_definition" 1 3 10 36 (tsl [
      .mk "decorator" 1 1 10 18 (tsl [
        .mk "@" 1 1 10 11 (tsl []),
        .mk "attribute" 1 1 11 18 (tsl [
          .mk "identifier" 1 1 11 14 (tsl []),
          .mk "." 1 1 14 15 (tsl []),
          .mk "identifier" 1 1 15 18 (tsl [])])]),
      .mk "function_definition" 2 3 19 36 (tsl [
        .mk "def" 2 2 19 22 (tsl []),
        .mk "identifier" 2 2 23 24 (tsl []),
        .mk "parameters" 2 2 24 26 (tsl []),
        .mk ":" 2 2 26 27 (tsl []),
        .mk "block" 3 3 32 36 (tsl [
          .mk "pass_statement" 3 3 32 36 (tsl [])])])])])

/-- Predicate from the spec's words for claim C2: does a path carry the
`.backup` suffix? -/
def hasBackupSuffix (path : String) : Bool :=
  leadsWith ".backup".data.reverse path.data.reverse

/-- A 60-line text file body (for claim C5: a file with no available
parser). -/
def txtContent : String := joinLines (List.replicate 60 "x")

/-- A placeholder tree for files the indexer never parses (the `tree`
argument of `indexFileChunks` is not consulted for unsupported
suffixes). -/
def emptyTree : TSNode := .mk "module" 0 0 0 0 (tsl [])

/-- The pre-edit content of the 10-line file `a.py` in the re-indexing
scenario of claim C3. -/
def preContent : String := "a\nb\nc\nd\ne\nf\ng\nh\ni\nj"

/-- The store before the apply in the scenario of claim C3: one record
for `a.py` covering lines 1-10 with the pre-edit content. -/
def dbBefore : EmbeddingDB :=
  ⟨[⟨md5Hex preContent, "a.py", "Statement", "code_block", 1, 10, preContent, []⟩]⟩

/-! ## Claim theorems -/

/-- Claim C1 (corrected).  The Patch Applier performs no bounds
validation: an Edit Proposal whose bounds violate
`1 <= start_line <= end_line <= current_line_count` is not rejected —
the splice is computed with Python slice clamping and the file is
written (exactly one write, to the target).  When `end_line` is at or
beyond the file's line count, everything from `start_line` through end
of file is replaced by `new_content`'s lines. -/
theorem c1_no_bounds_validation (path content : String) (c : Change)
    (h : (splitlines content).length ≤ c.endLine) :
    (applySingleChangeWrites path content c).map Prod.fst = [path] ∧
    applySingleChangeLines content c =
      (splitlines content).take (c.startLine - 1) ++ splitlines c.newContent := by
  refine ⟨rfl, ?_⟩
  unfold applySingleChangeLines spliceLines
  rw [List.drop_eq_nil_of_le h, List.append_nil]

/-- Witness for C1: a proposal with `end_line = 99` against a 3-line
file is applied and written, replacing lines 2-3 with `X`. -/
theorem c1_no_bounds_validation_witness :
    (splitlines "a\nb\nc").length ≤ 99 ∧
    ((applySingleChangeWrites "a.py" "a\nb\nc" ⟨2, 99, "X"⟩).map Prod.fst = ["a.py"] ∧
      applySingleChangeLines "a\nb\nc" ⟨2, 99, "X"⟩ =
        (splitlines "a\nb\nc").take 1 ++ splitlines "X") :=
  ⟨by decide, c1_no_bounds_validation "a.py" "a\nb\nc" ⟨2, 99, "X"⟩ (by decide)⟩

/-- Counterexample for C1 as stated: on the 3-line file `a / b / c`, the
proposal `{start_line: 3, end_line: 1}` (start beyond end) is applied
and written — duplicating line `b` — and the proposal
`{start_line: 2, end_line: 99}` (end beyond file length) is applied and
written, truncating the file; in both cases the write changes the file,
refuting "rejected and never written". -/
theorem c1_counterexample :
    applySingleChangeWrites "a.py" "a\nb\nc" ⟨3, 1, "X"⟩ = [("a.py", "a\nb\nX\nb\nc")] ∧
    applySingleChangeWrites "a.py" "a\nb\nc" ⟨2, 99, "Y"⟩ = [("a.py", "a\nY")] ∧
    ("a\nb\nX\nb\nc" ≠ "a\nb\nc" ∧ "a\nY" ≠ "a\nb\nc") := by decide

/-- Claim C2 (corrected).  No backup file exists: applying a change
performs exactly one filesystem write, to the target file itself
(overwritten in place); no path with a `.backup` suffix is ever written,
and there is no rollback mechanism. -/
theorem c2_no_backup_file (path content : String) (c : Change)
    (h : hasBackupSuffix path = false) :
    (applySingleChangeWrites path content c).map Prod.fst = [path] ∧
    (applySingleChangeWrites path content c).filter
      (fun w => hasBackupSuffix w.1) = [] := by
  refine ⟨rfl, ?_⟩
  simp [applySingleChangeWrites, List.filter, h]

/-- Witness for C2 at a concrete apply. -/
theorem c2_no_backup_file_witness :
    hasBackupSuffix "b.py" = false ∧
    ((applySingleChangeWrites "b.py" "a\nb\nc" ⟨2, 2, "y"⟩).map Prod.fst = ["b.py"] ∧
      (applySingleChangeWrites "b.py" "a\nb\nc" ⟨2, 2, "y"⟩).filter
        (fun w => hasBackupSuffix w.1) = []) :=
  ⟨by decide, c2_no_backup_file "b.py" "a\nb\nc" ⟨2, 2, "y"⟩ (by decide)⟩

/-- Counterexample for C2 as stated: during a concrete apply the
complete write trace is one write to the target itself; no sibling file
with a `.backup` suffix is created at any point, refuting "a sibling
file with a `.backup` suffix is created as the recovery point". -/
theorem c2_counterexample :
    applySingleChangeWrites "a.py" "a\nb" ⟨1, 1, "x"⟩ = [("a.py", "x\nb")] ∧
    (applySingleChangeWrites "a.py" "a\nb" ⟨1, 1, "x"⟩).filter
      (fun w => hasBackupSuffix w.1) = [] := by decide

/-- Claim C3 (code_bug).  `_update_file_index` calls
`self.db.remove_chunks_for_file`, a method `EmbeddingDB` does not
define; the `AttributeError` is swallowed by the blanket `except`, so
after a successful apply no record is deleted and nothing is
re-extracted: the store still holds the pre-edit record, and
`locate("a.py", 3)` returns content that does not reflect the post-edit
text. -/
theorem c3_stale_index_after_apply :
    updateFileIndex dbBefore = dbBefore ∧
    getChunkByLocation (updateFileIndex dbBefore) "a.py" 3 =
      some ⟨"a.py", "Statement", "code_block", 1, 10, preContent⟩ ∧
    applySingleChange preContent ⟨3, 4, "x = 1"⟩ ≠ preContent := by
  exact ⟨rfl, by decide, by decide⟩

/-- Claim C5 (corrected).  For a file whose suffix is neither `.py` nor
`.js`, `_index_file` returns before constructing a parser and emits no
chunks at all: there is no `GenericBlock` fallback and no 50-line
windowing anywhere in the extraction. -/
theorem c5_unsupported_suffix_skipped (suffix src : String) (tree : TSNode)
    (h1 : suffix ≠ ".py") (h2 : suffix ≠ ".js") :
    indexFileChunks suffix src tree = [] := by
  simp [indexFileChunks, h1, h2]

/-- Witness for C5: a `.txt` file is skipped. -/
theorem c5_unsupported_suffix_skipped_witness :
    ((".txt" : String) ≠ ".py" ∧ (".txt" : String) ≠ ".js") ∧
    indexFileChunks ".txt" txtContent emptyTree = [] :=
  ⟨by decide, c5_unsupported_suffix_skipped ".txt" txtContent emptyTree
    (by decide) (by decide)⟩

/-- Counterexample for C5 as stated: a 60-line `.txt` file yields zero
chunks — in particular not the two 50-line windows of type
`GenericBlock` named `chunk_0`, `chunk_1` that the claim requires. -/
theorem c5_counterexample :
    (splitNl txtContent).length = 60 ∧
    indexFileChunks ".txt" txtContent emptyTree = [] ∧
    ((indexFileChunks ".txt" txtContent emptyTree).filter
      (fun c => c.type == "GenericBlock")).length = 0 := by decide

/-- Claim C6 (code_bug).  For the file
`import os / @app.get / def f(): / pass`, extraction emits the bare
inner definition (lines 3-4, content without the decorator) and no chunk
covering the decorator line 2: `_process_decorated` is skipped because
the decorated node's 0-based start row 1 is found — numerically — in
the 1-based `processed_lines` set `{1}` left by the import chunk, after
which the inner `function_definition` no longer hits that guard and is
emitted bare. -/
theorem c6_decorated_bare_emitted :
    indexFileChunks ".py" file4 tree4 =
      [⟨"import os", "import os", 1, 1, "Import", "imports"⟩,
       ⟨"def f():\n    pass", "def f():\n    pass", 3, 4, "FunctionDef", "f"⟩] ∧
    (indexFileChunks ".py" file4 tree4).all
      (fun c => !(decide (c.startLine ≤ 2 ∧ 2 ≤ c.endLine))) = true := by decide

/-- Claim C7 (code_bug).  For the file `print("a") / def f(): / pass`
(no trailing newline), line 1 is non-blank and not comment-only, yet no
emitted chunk's range covers it: the sweep accumulates `print("a")` but
never flushes it, because the loop's flush condition
(`not line.strip() or i == len(lines)`) is unreachable once the file's
remaining lines are all in `processed_lines`, and the pending run is
discarded at loop exit. -/
theorem c7_coverage_gap :
    indexFileChunks ".py" file3 tree3 =
      [⟨"def f():\n    pass", "def f():\n    pass", 2, 3, "FunctionDef", "f"⟩] ∧
    pyStrip "print(\"a\")" ≠ "" ∧
    pyStartsWith (pyStrip "print(\"a\")") "#" = false ∧
    (indexFileChunks ".py" file3 tree3).all
      (fun c => !(decide (c.startLine ≤ 1 ∧ 1 ≤ c.endLine))) = true := by decide

/-- Claim C9 (confirmed).  Under the external contract that the
embedding model produces 384-dimensional vectors, `get_embedding`
returns a vector of length 384 for every outcome of the model call, and
on any model failure it returns the all-zero vector of length 384
instead of propagating the error (the embedding is a total function). -/
theorem c9_embedding_fallback (r : Except String (List Float))
    (h : ∀ v, r = .ok v → v.length = 384) :
    (getEmbedding r).length = 384 ∧
    (∀ e, r = .error e → getEmbedding r = List.replicate 384 0.0) := by
  cases r with
  | ok v => exact ⟨h v rfl, fun e he => by cases he⟩
  | error e =>
    refine ⟨?_, fun e' _ => rfl⟩
    show (List.replicate 384 (0.0 : Float)).length = 384
    exact List.length_replicate 384 0.0

/-- Witness for C9 at a failing model call. -/
theorem c9_embedding_fallback_witness :
    (getEmbedding (Except.error "model failure")).length = 384 ∧
    getEmbedding (Except.error "model failure") = List.replicate 384 0.0 :=
  ⟨(c9_embedding_fallback (Except.error "model failure") (fun _ h => nomatch h)).1,
   (c9_embedding_fallback (Except.error "model failure") (fun _ h => nomatch h)).2
     "model failure" rfl⟩

/-- Claim C8 (confirmed).  Applying `{start_line: 3, end_line: 4,
new_content: "x = 1"}` to any 10-line file produces a written line
sequence of 9 lines whose line 3 (1-based) is exactly `x = 1`. -/
theorem c8_example_scenario (content : String)
    (h : (splitlines content).length = 10) :
    (applySingleChangeLines content ⟨3, 4, "x = 1"⟩).length = 9 ∧
    (applySingleChangeLines content ⟨3, 4, "x = 1"⟩).get? 2 = some "x = 1" := by
  have hx : splitlines "x = 1" = ["x = 1"] := by decide
  have hA : ((splitlines content).take 2).length = 2 := by
    rw [List.length_take, h]
    decide
  constructor
  · show ((splitlines content).take 2 ++ splitlines "x = 1" ++
      (splitlines content).drop 4).length = 9
    rw [hx]
    simp only [List.length_append, List.length_take, List.length_drop, h,
      List.length_cons, List.length_nil]
    decide
  · show ((splitlines content).take 2 ++ splitlines "x = 1" ++
      (splitlines content).drop 4).get? 2 = some "x = 1"
    rw [hx]
    rw [List.get?_append (by rw [List.length_append, hA]; decide)]
    rw [List.get?_append_right (by rw [hA])]
    rw [hA]
    rfl

/-- Witness for C8 on a concrete 10-line file. -/
theorem c8_example_scenario_witness :
    (splitlines "a1\na2\na3\na4\na5\na6\na7\na8\na9\na10").length = 10 ∧
    ((applySingleChangeLines "a1\na2\na3\na4\na5\na6\na7\na8\na9\na10"
        ⟨3, 4, "x = 1"⟩).length = 9 ∧
      (applySingleChangeLines "a1\na2\na3\na4\na5\na6\na7\na8\na9\na10"
        ⟨3, 4, "x = 1"⟩).get? 2 = some "x = 1") :=
  ⟨by decide, c8_example_scenario "a1\na2\na3\na4\na5\na6\na7\na8\na9\na10" (by decide)⟩

/-! ## Store lemmas (for claim C4) -/

/-- After `_store_chunk`, the chunk's hash exists in the store. -/
theorem chunkExists_storeChunkIfNew_self (embed : String → List Float)
    (relPath : String) (db : EmbeddingDB) (c : Chunk) :
    chunkExists (storeChunkIfNew embed relPath db c) c.hash = true := by
  unfold storeChunkIfNew
  by_cases h : chunkExists db c.hash = true
  · rw [if_pos h]; exact h
  · rw [if_neg h]
    unfold chunkExists storeChunk
    simp [List.any_append]

/-- `_store_chunk` never removes an existing hash. -/
theorem chunkExists_storeChunkIfNew_mono (embed : String → List Float)
    (relPath : String) (db : EmbeddingDB) (c : Chunk) (hsh : String)
    (h : chunkExists db hsh = true) :
    chunkExists (storeChunkIfNew embed relPath db c) hsh = true := by
  unfold storeChunkIfNew
  by_cases hc : chunkExists db c.hash = true
  · rw [if_pos hc]; exact h
  · rw [if_neg hc]
    unfold chunkExists storeChunk
    unfold chunkExists at h
    simp [List.any_append, h]

/-- A run of `_store_chunk` calls never removes an existing hash. -/
theorem chunkExists_storeMany_mono (embed : String → List Float)
    (relPath : String) (cs : List Chunk) :
    ∀ (db : EmbeddingDB) (hsh : String), chunkExists db hsh = true →
      chunkExists (storeMany embed relPath db cs) hsh = true := by
  induction cs with
  | nil => intro db hsh h; exact h
  | cons c cs ih =>
    intro db hsh h
    exact ih _ _ (chunkExists_storeChunkIfNew_mono embed relPath db c hsh h)

/-- After storing a chunk list, every chunk's hash exists. -/
theorem chunkExists_storeMany_of_mem (embed : String → List Float)
    (relPath : String) (cs : List Chunk) :
    ∀ (db : EmbeddingDB) (c : Chunk), c ∈ cs →
      chunkExists (storeMany embed relPath db cs) c.hash = true := by
  induction cs with
  | nil => intro db c hc; cases hc
  | cons a cs ih =>
    intro db c hc
    rcases List.mem_cons.mp hc with rfl | hc
    · exact chunkExists_storeMany_mono embed relPath cs _ _
        (chunkExists_storeChunkIfNew_self embed relPath db c)
    · exact ih _ c hc

/-- `_store_chunk` on a hash already present is a no-op. -/
theorem storeChunkIfNew_of_exists (embed : String → List Float)
    (relPath : String) (db : EmbeddingDB) (c : Chunk)
    (h : chunkExists db c.hash = true) :
    storeChunkIfNew embed relPath db c = db := by
  unfold storeChunkIfNew; rw [if_pos h]

/-- A run of `_store_chunk` calls whose hashes all exist is a no-op. -/
theorem storeMany_of_all_exist (embed : String → List Float)
    (relPath : String) (cs : List Chunk) :
    ∀ db : EmbeddingDB, (∀ c ∈ cs, chunkExists db c.hash = true) →
      storeMany embed relPath db cs = db := by
  induction cs with
  | nil => intro db _; rfl
  | cons a cs ih =>
    intro db h
    show storeMany embed relPath (storeChunkIfNew embed relPath db a) cs = db
    rw [storeChunkIfNew_of_exists embed relPath db a (h a (List.mem_cons_self a cs))]
    exact ih db (fun c hc => h c (List.mem_cons_of_mem _ hc))

/-- `_store_chunk` keeps the stored ids distinct. -/
theorem ids_nodup_storeChunkIfNew (embed : String → List Float)
    (relPath : String) (db : EmbeddingDB) (c : Chunk)
    (h : (db.records.map DBRecord.id).Nodup) :
    ((storeChunkIfNew embed relPath db c).records.map DBRecord.id).Nodup := by
  unfold storeChunkIfNew
  by_cases hc : chunkExists db c.hash = true
  · rw [if_pos hc]; exact h
  · rw [if_neg hc]
    unfold storeChunk
    rw [List.map_append, List.nodup_append]
    refine ⟨h, List.nodup_singleton _, ?_⟩
    intro x hx hx2
    have hxc : x = c.hash := List.mem_singleton.mp hx2
    subst hxc
    rcases List.mem_map.mp hx with ⟨r, hr, hid⟩
    exact hc (by
      unfold chunkExists
      rw [List.any_eq_true]
      exact ⟨r, hr, by rw [beq_iff_eq, hid]⟩)

/-- A run of `_store_chunk` calls keeps the stored ids distinct. -/
theorem ids_nodup_storeMany (embed : String → List Float)
    (relPath : String) (cs : List Chunk) :
    ∀ db : EmbeddingDB, (db.records.map DBRecord.id).Nodup →
      ((storeMany embed relPath db cs).records.map DBRecord.id).Nodup := by
  induction cs with
  | nil => intro db h; exact h
  | cons a cs ih =>
    intro db h
    exact ih _ (ids_nodup_storeChunkIfNew embed relPath db a h)

/-! ## Extraction hash invariant (for claim C4): every emitted chunk's
`hash` field is the digest of its `content` field -/

/-- `_process_node` only emits chunks whose hash is the digest of their
content. -/
theorem processNode_hash (src ct : String) (n : TSNode) (st : ExtractState)
    (h : ∀ c ∈ st.chunks, c.hash = md5Hex c.content) :
    ∀ c ∈ (processNode src ct n st).chunks, c.hash = md5Hex c.content := by
  unfold processNode
  by_cases hm : n.startRow ∈ st.processed
  · rw [if_pos hm]; exact h
  · rw [if_neg hm]
    intro c hc
    rcases List.mem_append.mp hc with hc | hc
    · exact h c hc
    · rw [List.mem_singleton.mp hc]

/-- `_process_decorated` only emits chunks whose hash is the digest of
their content. -/
theorem processDecorated_hash (src : String) (n : TSNode) (st : ExtractState)
    (h : ∀ c ∈ st.chunks, c.hash = md5Hex c.content) :
    ∀ c ∈ (processDecorated src n st).chunks, c.hash = md5Hex c.content := by
  unfold processDecorated
  by_cases hm : n.startRow ∈ st.processed
  · rw [if_pos hm]; exact h
  · rw [if_neg hm]
    cases hfind : findChild (fun c =>
        c.type == "function_definition" || c.type == "async_function_definition" ||
        c.type == "class_definition") n.children with
    | none => exact h
    | some funcNode =>
      intro c hc
      rcases List.mem_append.mp hc with hc | hc
      · exact h c hc
      · rw [List.mem_singleton.mp hc]

/-- The `walk_tree` dispatch preserves the hash invariant. -/
theorem walkStep_hash (cfg : LangConfig) (src : String) (n : TSNode)
    (st : ExtractState) (h : ∀ c ∈ st.chunks, c.hash = md5Hex c.content) :
    ∀ c ∈ (walkStep cfg src n st).chunks, c.hash = md5Hex c.content := by
  unfold walkStep
  split_ifs with h1 h2 h3 h4
  · exact processDecorated_hash src n st h
  · exact processNode_hash src "FunctionDef" n st h
  · exact processNode_hash src "ClassDef" n st h
  · exact processNode_hash src "Statement" n st h
  · exact h

mutual

/-- `walk_tree` preserves the hash invariant. -/
theorem walkTree_hash (cfg : LangConfig) (src : String) :
    ∀ (n : TSNode) (st : ExtractState),
      (∀ c ∈ st.chunks, c.hash = md5Hex c.content) →
      ∀ c ∈ (walkTree cfg src st n).chunks, c.hash = md5Hex c.content
  | .mk t sr er sb eb cs, st, h => by
    rw [walkTree]
    exact walkTreeList_hash cfg src cs _
      (walkStep_hash cfg src (TSNode.mk t sr er sb eb cs) st h)
  termination_by structural n => n

/-- `walk_tree` over a child list preserves the hash invariant. -/
theorem walkTreeList_hash (cfg : LangConfig) (src : String) :
    ∀ (ns : TSNodeList) (st : ExtractState),
      (∀ c ∈ st.chunks, c.hash = md5Hex c.content) →
      ∀ c ∈ (walkTreeList cfg src st ns).chunks, c.hash = md5Hex c.content
  | .nil, st, h => by rw [walkTreeList]; exact h
  | .cons n ns, st, h => by
    rw [walkTreeList]
    exact walkTreeList_hash cfg src ns _ (walkTree_hash cfg src n st h)
  termination_by structural ns => ns

end

/-- The sweep loop only adds chunks whose hash is the digest of their
content. -/
theorem processRemainingGo_hash (processed : List Nat) (lines : List String) :
    ∀ (i : Nat) (cl : List String) (s : Nat) (acc : List Chunk),
      (∀ c ∈ acc, c.hash = md5Hex c.content) →
      ∀ c ∈ processRemainingGo processed i lines cl s acc,
        c.hash = md5Hex c.content := by
  induction lines with
  | nil => intro i cl s acc h; rw [processRemainingGo]; exact h
  | cons line rest ih =>
    intro i cl s acc h
    rw [processRemainingGo]
    by_cases h1 : i ∈ processed
    · rw [if_pos h1]; exact ih _ _ _ _ h
    · rw [if_neg h1]
      by_cases h2 : cl = [] ∧ (pyStrip line = "" ∨ pyStartsWith (pyStrip line) "#" = true)
      · rw [if_pos h2]; exact ih _ _ _ _ h
      · rw [if_neg h2]
        dsimp only
        by_cases h3 : pyStrip line = "" ∨ rest = []
        · rw [if_pos h3]
          refine ih _ _ _ _ ?_
          by_cases h4 : ((cl ++ [line]).any fun l => pyStrip l != "") = true
          · rw [if_pos h4]
            intro c hc
            rcases List.mem_append.mp hc with hc | hc
            · exact h c hc
            · rw [List.mem_singleton.mp hc]; rfl
          · rw [if_neg h4]; exact h
        · rw [if_neg h3]; exact ih _ _ _ _ h

/-- `_process_remaining_lines` emits only hash-consistent chunks. -/
theorem processRemainingLines_hash (lines : List String) (processed : List Nat) :
    ∀ c ∈ processRemainingLines lines processed, c.hash = md5Hex c.content := by
  unfold processRemainingLines
  exact processRemainingGo_hash processed lines 1 [] 0 [] (by intro c hc; cases hc)

/-- The import phase emits only hash-consistent chunks. -/
theorem importsPhase_hash (src : String) (imports : List TSNode) :
    ∀ c ∈ (importsPhase src imports).2, c.hash = md5Hex c.content := by
  cases imports with
  | nil => intro c hc; cases hc
  | cons n ns =>
    intro c hc
    rw [List.mem_singleton.mp hc]

/-- Every chunk emitted for a parsed file has `hash = md5(content)`. -/
theorem extractChunks_hash (cfg : LangConfig) (src : String) (tree : TSNode) :
    ∀ c ∈ extractChunks cfg src tree, c.hash = md5Hex c.content := by
  unfold extractChunks
  intro c hc
  rcases List.mem_append.mp hc with hc | hc
  · exact walkTree_hash cfg src tree _ (importsPhase_hash src _) c hc
  · exact processRemainingLines_hash _ _ c hc

/-- Every chunk `_index_file` stores has `hash = md5(content)`. -/
theorem indexFileChunks_hash (suffix src : String) (tree : TSNode) :
    ∀ c ∈ indexFileChunks suffix src tree, c.hash = md5Hex c.content := by
  unfold indexFileChunks
  split_ifs with h1 h2
  · exact extractChunks_hash pythonConfig src tree
  · exact extractChunks_hash javascriptConfig src tree
  · intro c hc; cases hc

/-- Claim C4 (confirmed).  Chunks with identical content (from any two
indexing runs, same or different files) get the identical content hash;
the store keeps at most one record per hash (distinct ids are preserved
by any run of `_store_chunk` calls); and re-storing the same chunk list
a second time leaves the store exactly as after the first run — in
particular the record count is unchanged. -/
theorem c4_content_hash_dedup (embed : String → List Float) (relPath : String)
    (suf₁ src₁ : String) (t₁ : TSNode) (suf₂ src₂ : String) (t₂ : TSNode)
    (c₁ c₂ : Chunk) (h₁ : c₁ ∈ indexFileChunks suf₁ src₁ t₁)
    (h₂ : c₂ ∈ indexFileChunks suf₂ src₂ t₂) (hc : c₁.content = c₂.content)
    (db : EmbeddingDB) (cs : List Chunk)
    (hdb : (db.records.map DBRecord.id).Nodup) :
    c₁.hash = c₂.hash ∧
    ((storeMany embed relPath db cs).records.map DBRecord.id).Nodup ∧
    storeMany embed relPath (storeMany embed relPath db cs) cs =
      storeMany embed relPath db cs := by
  refine ⟨?_, ?_, ?_⟩
  · rw [indexFileChunks_hash suf₁ src₁ t₁ c₁ h₁,
      indexFileChunks_hash suf₂ src₂ t₂ c₂ h₂, hc]
  · exact ids_nodup_storeMany embed relPath cs db hdb
  · exact storeMany_of_all_exist embed relPath cs _
      (fun c hcm => chunkExists_storeMany_of_mem embed relPath cs db c hcm)

/-- Witness for C4: the import chunk of `file4` indexed twice into an
empty store. -/
theorem c4_content_hash_dedup_witness :
    ((⟨"import os", "import os", 1, 1, "Import", "imports"⟩ : Chunk) ∈
        indexFileChunks ".py" file4 tree4 ∧
      ((⟨[]⟩ : EmbeddingDB).records.map DBRecord.id).Nodup) ∧
    ((⟨"import os", "import os", 1, 1, "Import", "imports"⟩ : Chunk).hash =
        (⟨"import os", "import os", 1, 1, "Import", "imports"⟩ : Chunk).hash ∧
      ((storeMany (fun _ => []) "a.py" ⟨[]⟩
          [⟨"import os", "import os", 1, 1, "Import", "imports"⟩]).records.map
        DBRecord.id).Nodup ∧
      storeMany (fun _ => []) "a.py"
          (storeMany (fun _ => []) "a.py" ⟨[]⟩
            [⟨"import os", "import os", 1, 1, "Import", "imports"⟩])
          [⟨"import os", "import os", 1, 1, "Import", "imports"⟩] =
        storeMany (fun _ => []) "a.py" ⟨[]⟩
          [⟨"import os", "import os", 1, 1, "Import", "imports"⟩]) :=
  ⟨⟨by decide, List.nodup_nil⟩,
    c4_content_hash_dedup (fun _ => []) "a.py" ".py" file4 tree4 ".py" file4 tree4
      _ _ (by decide) (by decide) rfl ⟨[]⟩
      [⟨"import os", "import os", 1, 1, "Import", "imports"⟩] List.nodup_nil⟩

/-! ## Join/split lemmas (for claim C10) -/

/-- Unfolding `joinLinesData` at a cons with nonempty tail. -/
theorem joinLinesData_cons_of_ne_nil (x : List Char) (l : List (List Char))
    (hl : l ≠ []) : joinLinesData (x :: l) = x ++ '\n' :: joinLinesData l := by
  cases l with
  | nil => exact absurd rfl hl
  | cons y ys => rfl

/-- Pieces produced by the `split('\n')` loop contain no newline. -/
theorem splitNlAux_no_newline (cs : List Char) :
    ∀ (acc : List Char), (∀ a ∈ acc, a ≠ '\n') →
      ∀ p ∈ splitNlAux cs acc, ∀ ch ∈ p, ch ≠ '\n' := by
  induction cs with
  | nil =>
    intro acc hacc p hp ch hch
    rw [splitNlAux] at hp
    rw [List.mem_singleton.mp hp] at hch
    exact hacc ch (List.mem_reverse.mp hch)
  | cons c rest ih =>
    intro acc hacc p hp ch hch
    rw [splitNlAux] at hp
    by_cases hc : c = '\n'
    · rw [if_pos hc] at hp
      rcases List.mem_cons.mp hp with rfl | hp
      · exact hacc ch (List.mem_reverse.mp hch)
      · exact ih [] (by intro a ha; cases ha) p hp ch hch
    · rw [if_neg hc] at hp
      refine ih (c :: acc) ?_ p hp ch hch
      intro a ha
      rcases List.mem_cons.mp ha with rfl | ha
      · exact hc
      · exact hacc a ha

/-- Pieces of `splitNl` contain no newline character. -/
theorem splitNl_no_newline (s : String) :
    ∀ p ∈ splitNl s, ∀ ch ∈ p.data, ch ≠ '\n' := by
  intro p hp
  rcases List.mem_map.mp hp with ⟨l, hl, rfl⟩
  intro ch hch
  exact splitNlAux_no_newline s.data [] (by intro a ha; cases ha) l hl ch hch

/-- Pieces of `splitlines` contain no newline character. -/
theorem splitlines_no_newline (s : String) :
    ∀ p ∈ splitlines s, ∀ ch ∈ p.data, ch ≠ '\n' := by
  intro p hp
  simp only [splitlines] at hp
  split at hp
  · exact splitNl_no_newline s p (List.mem_of_mem_dropLast hp)
  · exact splitNl_no_newline s p hp

/-- Every line of the spliced output comes from `splitlines` of the
original content or of `new_content`, so it contains no newline. -/
theorem applySingleChangeLines_no_newline (content : String) (c : Change) :
    ∀ p ∈ applySingleChangeLines content c, ∀ ch ∈ p.data, ch ≠ '\n' := by
  intro p hp
  unfold applySingleChangeLines spliceLines at hp
  rcases List.mem_append.mp hp with hp | hp
  · rcases List.mem_append.mp hp with hp | hp
    · exact splitlines_no_newline content p (List.mem_of_mem_take hp)
    · exact splitlines_no_newline c.newContent p hp
  · exact splitlines_no_newline content p (List.mem_of_mem_drop hp)

/-- The last character of the join is the last character of the last
piece, when that piece is nonempty. -/
theorem joinLinesData_concat_getLast (ys : List (List Char)) (x : List Char)
    (hx : x ≠ []) : (joinLinesData (ys ++ [x])).getLast? = x.getLast? := by
  induction ys with
  | nil => rfl
  | cons y ys ih =>
    rw [List.cons_append, joinLinesData_cons_of_ne_nil y (ys ++ [x]) (by simp)]
    have hne : joinLinesData (ys ++ [x]) ≠ [] := by
      intro hnil
      rw [hnil] at ih
      exact hx (List.getLast?_eq_none.mp ih.symm)
    rw [List.getLast?_append_of_ne_nil y (List.cons_ne_nil _ _)]
    cases hJ : joinLinesData (ys ++ [x]) with
    | nil => exact absurd hJ hne
    | cons j js =>
      rw [List.getLast?_cons_cons, ← hJ]
      exact ih

/-- When the last piece is empty and at least one piece precedes it, the
join ends in a newline character. -/
theorem joinLinesData_concat_nil (ys : List (List Char)) (hys : ys ≠ []) :
    (joinLinesData (ys ++ [[]])).getLast? = some '\n' := by
  induction ys with
  | nil => exact absurd rfl hys
  | cons y ys ih =>
    rw [List.cons_append, joinLinesData_cons_of_ne_nil y (ys ++ [[]]) (by simp)]
    rcases eq_or_ne ys [] with rfl | hne
    · show (y ++ ['\n']).getLast? = some '\n'
      exact List.getLast?_concat y
    · rw [List.getLast?_append_of_ne_nil y (List.cons_ne_nil _ _)]
      have hJ := ih hne
      cases hJe : joinLinesData (ys ++ [[]]) with
      | nil => rw [hJe] at hJ; simp at hJ
      | cons j js =>
        rw [List.getLast?_cons_cons, ← hJe]
        exact hJ

/-- Claim C10 (corrected).  A successful apply rewrites the file as the
original `splitlines` outside the replaced range plus `new_content`'s
lines, joined with `'\n'` with no trailing newline appended: lines
before the range and after it are preserved verbatim; when the last line
of the written sequence is nonempty, the written content does not end in
a newline (so a file whose content ended in exactly one trailing newline
loses it, even when the edit does not touch the last line); but when the
written sequence's last line is the empty string (the original content
ended in two or more newlines), the written content still ends in a
newline. -/
theorem c10_no_trailing_newline (content : String) (c : Change)
    (h1 : c.startLine - 1 ≤ (splitlines content).length) :
    (applySingleChangeLines content c).take (c.startLine - 1) =
      (splitlines content).take (c.startLine - 1) ∧
    (applySingleChangeLines content c).drop
        ((c.startLine - 1) + (splitlines c.newContent).length) =
      (splitlines content).drop c.endLine ∧
    ((applySingleChangeLines content c).getLast? = some "" →
      2 ≤ (applySingleChangeLines content c).length →
      (applySingleChange content c).data.getLast? = some '\n') ∧
    (∀ l, (applySingleChangeLines content c).getLast? = some l → l ≠ "" →
      (applySingleChange content c).data.getLast? ≠ some '\n') := by
  have hA : ((splitlines content).take (c.startLine - 1)).length =
      c.startLine - 1 := by
    rw [List.length_take]
    exact Nat.min_eq_left h1
  refine ⟨?_, ?_, ?_, ?_⟩
  · show (((splitlines content).take (c.startLine - 1) ++
        splitlines c.newContent) ++ (splitlines content).drop c.endLine).take
        (c.startLine - 1) = (splitlines content).take (c.startLine - 1)
    rw [List.append_assoc]
    exact List.take_left' hA
  · show (((splitlines content).take (c.startLine - 1) ++
        splitlines c.newContent) ++ (splitlines content).drop c.endLine).drop
        ((c.startLine - 1) + (splitlines c.newContent).length) =
      (splitlines content).drop c.endLine
    exact List.drop_left' (by rw [List.length_append, hA])
  · intro hlast hlen
    have hne : applySingleChangeLines content c ≠ [] := by
      intro hnil; rw [hnil] at hlast; cases hlast
    have hgl : (applySingleChangeLines content c).getLast hne = "" := by
      rw [List.getLast?_eq_getLast_of_ne_nil hne] at hlast
      exact Option.some.inj hlast
    have hdecomp : (applySingleChangeLines content c).dropLast ++ [""] =
        applySingleChangeLines content c := by
      conv_rhs => rw [← List.dropLast_append_getLast hne]
      rw [hgl]
    show (joinLinesData
      ((applySingleChangeLines content c).map String.data)).getLast? = some '\n'
    rw [← hdecomp, List.map_append]
    rw [show List.map String.data [""] = [[]] from rfl]
    refine joinLinesData_concat_nil _ ?_
    intro hmapnil
    have hdl : (applySingleChangeLines content c).dropLast = [] :=
      List.map_eq_nil.mp hmapnil
    have hlen2 := List.length_dropLast (applySingleChangeLines content c)
    rw [hdl] at hlen2
    simp only [List.length_nil] at hlen2
    omega
  · intro l hlast hlne
    have hne : applySingleChangeLines content c ≠ [] := by
      intro hnil; rw [hnil] at hlast; cases hlast
    have hgl : (applySingleChangeLines content c).getLast hne = l := by
      rw [List.getLast?_eq_getLast_of_ne_nil hne] at hlast
      exact Option.some.inj hlast
    have hlmem : l ∈ applySingleChangeLines content c :=
      hgl ▸ List.getLast_mem hne
    have hldata : l.data ≠ [] := fun hd => hlne (String.ext hd)
    have hdecomp : (applySingleChangeLines content c).dropLast ++ [l] =
        applySingleChangeLines content c := by
      conv_rhs => rw [← List.dropLast_append_getLast hne]
      rw [hgl]
    show (joinLinesData
      ((applySingleChangeLines content c).map String.data)).getLast? ≠ some '\n'
    rw [← hdecomp, List.map_append]
    rw [show List.map String.data [l] = [l.data] from rfl]
    rw [joinLinesData_concat_getLast _ _ hldata]
    rw [List.getLast?_eq_getLast_of_ne_nil hldata]
    intro heq
    exact applySingleChangeLines_no_newline content c l hlmem _
      (List.getLast_mem hldata) (Option.some.inj heq)

/-- Witness for C10: editing line 2 of the file `a\nb\nc\n` (which ends
in a single newline) yields a written content whose last line `c` is
nonempty and which therefore does not end in a newline. -/
theorem c10_no_trailing_newline_witness :
    ((⟨2, 2, "X"⟩ : Change).startLine - 1 ≤ (splitlines "a\nb\nc\n").length ∧
      (applySingleChangeLines "a\nb\nc\n" ⟨2, 2, "X"⟩).getLast? = some "c") ∧
    (applySingleChange "a\nb\nc\n" ⟨2, 2, "X"⟩).data.getLast? ≠ some '\n' :=
  ⟨⟨by decide, by decide⟩,
    (c10_no_trailing_newline "a\nb\nc\n" ⟨2, 2, "X"⟩ (by decide)).2.2.2 "c"
      (by decide) (by decide)⟩

/-- Counterexample for C10 as stated: the file `a\n\n` ends in a newline
(two lines, the second empty); replacing line 1 — an edit that does not
touch the last line — writes `x\n`, which still ends in a newline,
refuting "written without a trailing newline" / "loses that final
newline after any successful apply". -/
theorem c10_counterexample :
    splitlines "a\n\n" = ["a", ""] ∧
    applySingleChange "a\n\n" ⟨1, 1, "x"⟩ = "x\n" ∧
    ("a\n\n".data.getLast? = some '\n' ∧
      (applySingleChange "a\n\n" ⟨1, 1, "x"⟩).data.getLast? = some '\n') := by
  decide

end CodebaseAI
